/-
Verification of the CoSpend expense-tracking application (src/App.tsx).

The data model and the store operations are shallowly embedded from the
source.  JavaScript `Array.prototype.sort` with a comparator is a stable
sort; its output (for a comparator inducing a total preorder) is the unique
sorted permutation in which elements comparing equal keep their original
relative order, so it is modelled by `List.insertionSort`, which has exactly
that characterisation.  Date strings in the canonical `YYYY-MM-DD` form are
modelled by the `Ymd` structure; `new Date(s).getTime()` is modelled by the
monotone numeric key `Ymd.time`.  Monetary amounts (JS numbers holding
non-negative decimals) are modelled by rationals.
-/
import Mathlib

namespace CoSpend

/-- The two fixed parties (`UserID.A` / `UserID.B` in `types.ts`). -/
inductive UserID where
  | A
  | B
deriving DecidableEq, Repr

/-- Expense categories; the fixed enumerated set from `types.ts`
(the members used in `App.tsx` plus a default). -/
inductive Category where
  | GROCERIES
  | FOOD
  | OTHER
deriving DecidableEq, Repr

/-- A calendar date in canonical zero-padded `YYYY-MM-DD` form; the string is
determined by (year, month, day), so date-string equality is `Ymd` equality. -/
structure Ymd where
  year : Nat
  month : Nat
  day : Nat
deriving DecidableEq, Repr

/-- Model of `new Date(s).getTime()` for a canonical date string: a numeric
key that is monotone in (year, month, day); only comparisons of this key are
ever used by the code. -/
def Ymd.time (d : Ymd) : Nat :=
  d.year * 10000 + d.month * 100 + d.day

/-- An `Expense` record (`types.ts` / spec §3). -/
structure Expense where
  id : String
  date : Ymd
  item : String
  amount : ℚ
  category : Category
  payer : UserID
  createdAt : Nat
deriving DecidableEq, Repr

/-- An `ExpenseDraft`: an Expense minus id, payer and creation timestamp. -/
structure ExpenseDraft where
  date : Ymd
  item : String
  amount : ℚ
  category : Category
deriving DecidableEq, Repr

/-- The draft after the payer selection of the edit modal
(`ExpenseDraft & { payer: UserID }` in `handleSaveExpense`). -/
structure FinalDraft where
  date : Ymd
  item : String
  amount : ℚ
  category : Category
  payer : UserID
deriving DecidableEq, Repr

/-- The descending-by-date comparison used by both sort call sites:
`(a, b) => new Date(b.date).getTime() - new Date(a.date).getTime()`
puts `a` no later than `b` exactly when `b`'s time is ≤ `a`'s time. -/
def dateGe (a b : Expense) : Prop :=
  b.date.time ≤ a.date.time

instance : DecidableRel dateGe := fun a b => Nat.decLe _ _

instance : IsTotal Expense dateGe :=
  ⟨fun a b => Nat.le_total b.date.time a.date.time⟩

instance : IsTrans Expense dateGe :=
  ⟨fun _ _ _ hab hbc => Nat.le_trans hbc hab⟩

/-- `.sort((a, b) => new Date(b.date).getTime() - new Date(a.date).getTime())`:
the stable descending-by-date sort of the collection. -/
def sortByDateDesc (l : List Expense) : List Expense :=
  l.insertionSort dateGe

/-- The identifiers currently present in a collection (`expenses.map(e => e.id)`,
collected into `currentIds` as a set only for lookup). -/
def ids (l : List Expense) : List String :=
  l.map Expense.id

/-- `newItems` of `handleImportData` (`App.tsx` line 94): the candidates whose
identifier is not already present in the store. -/
def newItems (store candidates : List Expense) : List Expense :=
  candidates.filter fun e => !(decide (e.id ∈ ids store))

/-- `handleImportData`'s merge logic (`App.tsx` lines 92–97), on an already
parsed array: drop candidates whose id is already present, prepend the
survivors, re-sort descending by date; also return the reported count
(`newItems.length`). -/
def importMerge (store : List Expense) (candidates : List Expense) :
    List Expense × Nat :=
  (sortByDateDesc (newItems store candidates ++ store),
   (newItems store candidates).length)

/-- Draft promotion inside `handleSaveExpense`: assign `Date.now().toString()`
as the id and `Date.now()` as the creation timestamp. -/
def promote (finalData : FinalDraft) (now : Nat) : Expense :=
  { id := toString now
    date := finalData.date
    item := finalData.item
    amount := finalData.amount
    category := finalData.category
    payer := finalData.payer
    createdAt := now }

/-- `handleSaveExpense`'s store update (`App.tsx` line 83): prepend the newly
promoted expense and re-sort descending by date. -/
def handleSaveExpense (prev : List Expense) (finalData : FinalDraft)
    (now : Nat) : List Expense :=
  sortByDateDesc (promote finalData now :: prev)

/-- A date-keyed bucket of `groupedExpenses` (`App.tsx` lines 107–114): the
reduce pushes each expense, in collection order, onto the list stored under
its date key, so the bucket for `d` is exactly the sub-sequence of expenses
whose date is `d`, in their original relative order. -/
def groupedExpenses (es : List Expense) (d : Ymd) : List Expense :=
  es.filter fun e => decide (e.date = d)

/-- `Object.keys(groupedExpenses)`: the distinct date keys in first-insertion
order (date strings are not integer-like, so JS object key order is insertion
order).  `insertKey` appends a key when it is new. -/
def insertKey (ds : List Ymd) (d : Ymd) : List Ymd :=
  if d ∈ ds then ds else ds ++ [d]

/-- The distinct dates of the collection, in first-occurrence order
(the key set built up by the reduce of `App.tsx` lines 107–114). -/
def dateKeys (es : List Expense) : List Ymd :=
  es.foldl (fun ds e => insertKey ds e.date) []

/-- `sortedDates` (`App.tsx` line 116): the distinct dates sorted descending
by `getTime`. -/
def sortedDates (es : List Expense) : List Ymd :=
  (dateKeys es).insertionSort (fun a b => b.time ≤ a.time)

instance : DecidableRel (fun (a b : Ymd) => b.time ≤ a.time) :=
  fun a b => Nat.decLe _ _

/-! ### Application state and event handlers -/

/-- The React state of `App` that the claims are about (`App.tsx` lines 22–35);
persistence and settings are orthogonal to the claims and omitted. -/
structure AppState where
  expenses : List Expense
  draftExpense : Option ExpenseDraft
  isModalOpen : Bool
  isAnalyzing : Bool
deriving DecidableEq, Repr

/-- The parse outcome of the raw import text: `JSON.parse` yields an array of
Expense-shaped records or some non-array value; `none` models a thrown parse
error. -/
inductive ParsedImport where
  | arr (items : List Expense)
  | nonArray
deriving DecidableEq, Repr

/-- The user-visible message a handler raises via `alert`, if any. -/
inductive Notice where
  | importSuccess (count : Nat)
  | invalidFormat
  | parseFailure
  | analysisFailure
deriving DecidableEq, Repr

/-- `handleImportData` (`App.tsx` lines 88–104), with the `JSON.parse` of the
raw text represented by its outcome: on a parse error (the catch branch) or a
non-array payload, only an alert is raised; on an array the merge result is
stored and the admitted count reported. -/
def handleImportData (s : AppState) (input : Option ParsedImport) :
    AppState × Notice :=
  match input with
  | none => (s, Notice.parseFailure)
  | some ParsedImport.nonArray => (s, Notice.invalidFormat)
  | some (ParsedImport.arr items) =>
      let r := importMerge s.expenses items
      ({ s with expenses := r.1 }, Notice.importSuccess r.2)

/-- The save handler on the whole state (`App.tsx` lines 76–86): store the
promoted expense, close the modal, clear the draft. -/
def handleSave (s : AppState) (finalData : FinalDraft) (now : Nat) : AppState :=
  { s with
    expenses := handleSaveExpense s.expenses finalData now
    isModalOpen := false
    draftExpense := none }

/-- The edit modal's close handler (`App.tsx` line 298):
`onClose={() => setIsModalOpen(false)}`.  Only the modal flag changes; in
particular `draftExpense` is NOT reset (only `handleSaveExpense` does that). -/
def onCloseEdit (s : AppState) : AppState :=
  { s with isModalOpen := false }

/-- The outcome of the awaited `analyzeReceipt` call. -/
inductive AnalysisOutcome where
  | ok (draft : ExpenseDraft)
  | failed
deriving DecidableEq, Repr

/-- `handleFileChange` (`App.tsx` lines 49–73) once a file is selected:
`isAnalyzing` is set, then `reader.onloadend` runs as an async callback in
which the service call is awaited.  A rejection of `analyzeReceipt` happens
inside that callback, after the surrounding `try { … } catch` has already
returned, so the catch branch (which clears the busy flag and alerts) never
runs for it: on failure the state keeps `isAnalyzing = true`, no draft is set,
no modal opens and no alert is raised. -/
def handleFileChange (s : AppState) (outcome : AnalysisOutcome) :
    AppState × Option Notice :=
  let busy := { s with isAnalyzing := true }
  match outcome with
  | AnalysisOutcome.ok draft =>
      ({ busy with
          draftExpense := some draft
          isModalOpen := true
          isAnalyzing := false }, none)
  | AnalysisOutcome.failed => (busy, none)

/-! ### Balance Aggregator (spec-modelled) -/

/-- Modelled from the spec: the Balance Aggregator lives in the
`SummaryHeader` component, which is not among the sources; §4.2 specifies a
calendar-month match on the date field.  `inMonth e y m` holds when `e`'s
date lies in month `m` of year `y`. -/
def inMonth (e : Expense) (y m : Nat) : Bool :=
  decide (e.date.year = y ∧ e.date.month = m)

/-- Modelled from the spec: the Balance Aggregator's per-party total
(§4.2) — the sum of the amounts of the expenses of the reference month whose
payer is `u`. -/
def monthTotal (es : List Expense) (y m : Nat) (u : UserID) : ℚ :=
  ((es.filter fun e => inMonth e y m && decide (e.payer = u)).map
    Expense.amount).sum

/-- Modelled from the spec: the Balance Aggregator's net balance (§4.2),
`(partyA total − partyB total) / 2`. -/
def balance (es : List Expense) (y m : Nat) : ℚ :=
  (monthTotal es y m UserID.A - monthTotal es y m UserID.B) / 2

/-! ### Concrete sample data used by scenario instances -/

/-- A concrete expense with the given id, date, amount and payer. -/
def mkExp (i : String) (date : Ymd) (amount : ℚ) (payer : UserID) : Expense :=
  { id := i, date := date, item := "", amount := amount,
    category := Category.OTHER, payer := payer, createdAt := 0 }

/-- A two-element store with identifiers "1" and "2" (the shape of the mock
initial data). -/
def c1Store : List Expense :=
  [mkExp "1" ⟨2024, 1, 10⟩ 156 UserID.A, mkExp "2" ⟨2024, 1, 10⟩ 320 UserID.B]

/-- Five import candidates of which exactly the identifiers "1" and "2"
already exist in `c1Store`. -/
def c1Cands : List Expense :=
  [mkExp "1" ⟨2024, 1, 11⟩ 5 UserID.A, mkExp "2" ⟨2024, 1, 12⟩ 6 UserID.B,
   mkExp "3" ⟨2024, 1, 13⟩ 7 UserID.A, mkExp "4" ⟨2024, 1, 9⟩ 8 UserID.B,
   mkExp "5" ⟨2024, 1, 14⟩ 9 UserID.A]

/-- The §8 Balance Aggregator scenario store: in January 2024 party A paid
100 and party B paid 50. -/
def scenarioStore : List Expense :=
  [mkExp "a" ⟨2024, 1, 10⟩ 100 UserID.A, mkExp "b" ⟨2024, 1, 10⟩ 50 UserID.B]

/-- A concrete in-flight draft. -/
def sampleDraft : ExpenseDraft :=
  { date := ⟨2024, 1, 10⟩, item := "coffee", amount := 3, category := Category.FOOD }

/-! ### Sorting facts shared by several claims -/

theorem sortByDateDesc_perm (l : List Expense) : (sortByDateDesc l).Perm l :=
  List.perm_insertionSort dateGe l

theorem sortByDateDesc_sorted (l : List Expense) :
    (sortByDateDesc l).Sorted dateGe :=
  List.sorted_insertionSort dateGe l

theorem sortByDateDesc_of_sorted {l : List Expense} (h : l.Sorted dateGe) :
    sortByDateDesc l = l :=
  h.insertionSort_eq

theorem importMerge_fst_perm (store cands : List Expense) :
    ((importMerge store cands).1).Perm (newItems store cands ++ store) :=
  sortByDateDesc_perm _

/-- Every candidate's identifier is present after the merge: it either
already was in the store or the candidate survived the filter. -/
theorem mem_ids_importMerge {store cands : List Expense} {e : Expense}
    (he : e ∈ cands) : e.id ∈ ids (importMerge store cands).1 := by
  have h : (ids (importMerge store cands).1).Perm (ids (newItems store cands ++ store)) :=
    (importMerge_fst_perm store cands).map Expense.id
  rw [h.mem_iff]
  unfold ids
  rw [List.map_append]
  by_cases hs : e.id ∈ ids store
  · exact List.mem_append_right _ hs
  · refine List.mem_append_left _ ?_
    refine List.mem_map.mpr ⟨e, ?_, rfl⟩
    exact List.mem_filter.mpr ⟨he, by simp [hs]⟩

/-! ### Stability of the sort

For a predicate `p` that only holds on expenses of one fixed date key, the
stable descending sort does not change the `p`-subsequence: inserting an
element only walks past strictly later dates. -/

theorem filter_orderedInsert_pos (p : Expense → Bool) (a : Expense)
    (hpa : p a = true)
    (hkey : ∀ x : Expense, p x = true → x.date.time = a.date.time) :
    ∀ l : List Expense,
      (List.orderedInsert dateGe a l).filter p = a :: l.filter p := by
  intro l
  induction l with
  | nil => simp [List.orderedInsert, hpa]
  | cons b t ih =>
    simp only [List.orderedInsert]
    by_cases h : dateGe a b
    · rw [if_pos h]
      simp [List.filter_cons, hpa]
    · have hpb : p b = false := by
        rcases Bool.eq_false_or_eq_true (p b) with hb | hb
        · exact absurd (le_of_eq (hkey b hb)) h
        · exact hb
      rw [if_neg h]
      simp [List.filter_cons, hpb, ih]

theorem filter_orderedInsert_neg (p : Expense → Bool) (a : Expense)
    (hpa : p a = false) :
    ∀ l : List Expense,
      (List.orderedInsert dateGe a l).filter p = l.filter p := by
  intro l
  induction l with
  | nil => simp [List.orderedInsert, hpa]
  | cons b t ih =>
    simp only [List.orderedInsert]
    by_cases h : dateGe a b
    · rw [if_pos h]
      simp [List.filter_cons, hpa]
    · rw [if_neg h]
      simp [List.filter_cons, ih]

theorem filter_sortByDateDesc (p : Expense → Bool)
    (hkey : ∀ x y : Expense, p x = true → p y = true →
       x.date.time = y.date.time) :
    ∀ l : List Expense, (sortByDateDesc l).filter p = l.filter p := by
  intro l
  induction l with
  | nil => rfl
  | cons a t ih =>
    show (List.orderedInsert dateGe a (sortByDateDesc t)).filter p = _
    rcases Bool.eq_false_or_eq_true (p a) with hpa | hpa
    · rw [filter_orderedInsert_pos p a hpa (fun x hx => hkey x a hx hpa), ih]
      simp [List.filter_cons, hpa]
    · rw [filter_orderedInsert_neg p a hpa, ih]
      simp [List.filter_cons, hpa]

/-! ### Identifier uniqueness lemmas -/

theorem importMerge_ids_nodup {store cands : List Expense}
    (h1 : (ids store).Nodup) (h2 : (ids cands).Nodup) :
    (ids (importMerge store cands).1).Nodup := by
  have hperm : (ids (importMerge store cands).1).Perm
      (ids (newItems store cands ++ store)) :=
    (importMerge_fst_perm store cands).map Expense.id
  rw [hperm.nodup_iff]
  unfold ids newItems
  rw [List.map_append, List.nodup_append]
  refine ⟨?_, h1, ?_⟩
  · exact ((List.filter_sublist cands).map Expense.id).nodup h2
  · intro x hx hx'
    obtain ⟨e, he, rfl⟩ := List.mem_map.mp hx
    have hmem := (List.mem_filter.mp he).2
    simp only [Bool.not_eq_eq_eq_not, Bool.not_true, decide_eq_false_iff_not] at hmem
    exact hmem hx'

theorem handleSaveExpense_ids_nodup {store : List Expense} {fd : FinalDraft}
    {now : Nat} (h1 : (ids store).Nodup) (h2 : toString now ∉ ids store) :
    (ids (handleSaveExpense store fd now)).Nodup := by
  have hperm : (ids (handleSaveExpense store fd now)).Perm
      (ids (promote fd now :: store)) :=
    (sortByDateDesc_perm _).map Expense.id
  rw [hperm.nodup_iff]
  exact List.nodup_cons.mpr ⟨h2, h1⟩

/-! ### Date-key and grouping lemmas -/

theorem mem_insertKey {ds : List Ymd} {d x : Ymd} :
    x ∈ insertKey ds d ↔ x ∈ ds ∨ x = d := by
  unfold insertKey
  by_cases h : d ∈ ds
  · rw [if_pos h]
    constructor
    · exact Or.inl
    · rintro (hx | rfl)
      · exact hx
      · exact h
  · rw [if_neg h]
    simp [List.mem_append]

theorem insertKey_nodup {ds : List Ymd} (h : ds.Nodup) (d : Ymd) :
    (insertKey ds d).Nodup := by
  unfold insertKey
  by_cases hd : d ∈ ds
  · rw [if_pos hd]
    exact h
  · rw [if_neg hd]
    rw [List.nodup_append]
    exact ⟨h, List.nodup_singleton d,
      fun x hx hx' => hd ((List.mem_singleton.mp hx') ▸ hx)⟩

theorem mem_foldl_insertKey (es : List Expense) :
    ∀ (acc : List Ymd) (d : Ymd),
      d ∈ es.foldl (fun ds e => insertKey ds e.date) acc
        ↔ d ∈ acc ∨ ∃ e ∈ es, e.date = d := by
  induction es with
  | nil =>
    intro acc d
    simp
  | cons e t ih =>
    intro acc d
    rw [List.foldl_cons, ih, mem_insertKey]
    simp only [List.mem_cons]
    constructor
    · rintro ((hacc | rfl) | ⟨x, hx, rfl⟩)
      · exact Or.inl hacc
      · exact Or.inr ⟨e, Or.inl rfl, rfl⟩
      · exact Or.inr ⟨x, Or.inr hx, rfl⟩
    · rintro (hacc | ⟨x, (rfl | hx), rfl⟩)
      · exact Or.inl (Or.inl hacc)
      · exact Or.inl (Or.inr rfl)
      · exact Or.inr ⟨x, hx, rfl⟩

theorem foldl_insertKey_nodup (es : List Expense) :
    ∀ acc : List Ymd, acc.Nodup →
      (es.foldl (fun ds e => insertKey ds e.date) acc).Nodup := by
  induction es with
  | nil => intro acc h; exact h
  | cons e t ih => intro acc h; exact ih _ (insertKey_nodup h e.date)

theorem dateKeys_nodup (es : List Expense) : (dateKeys es).Nodup :=
  foldl_insertKey_nodup es [] List.nodup_nil

theorem mem_dateKeys {es : List Expense} {d : Ymd} :
    d ∈ dateKeys es ↔ ∃ e ∈ es, e.date = d := by
  unfold dateKeys
  rw [mem_foldl_insertKey]
  simp

theorem sortedDates_nodup (es : List Expense) : (sortedDates es).Nodup :=
  ((List.perm_insertionSort _ _).nodup_iff).mpr (dateKeys_nodup es)

theorem mem_sortedDates {es : List Expense} {d : Ymd} :
    d ∈ sortedDates es ↔ ∃ e ∈ es, e.date = d := by
  unfold sortedDates
  rw [(List.perm_insertionSort _ _).mem_iff]
  exact mem_dateKeys

theorem sum_map_add (ds : List Ymd) (f g : Ymd → Nat) :
    (ds.map fun d => f d + g d).sum = (ds.map f).sum + (ds.map g).sum := by
  induction ds with
  | nil => rfl
  | cons d t ih =>
    simp only [List.map_cons, List.sum_cons, ih]
    omega

theorem sum_indicator_notmem (ds : List Ymd) (a : Ymd) (ha : a ∉ ds) :
    (ds.map fun d => if a = d then 1 else 0).sum = 0 := by
  induction ds with
  | nil => rfl
  | cons d t ih =>
    simp only [List.map_cons, List.sum_cons]
    rw [if_neg (by rintro rfl; exact ha (List.mem_cons_self _ _)),
      ih (fun h => ha (List.mem_cons_of_mem _ h))]

theorem sum_indicator_mem (ds : List Ymd) (a : Ymd) (hnd : ds.Nodup)
    (ha : a ∈ ds) :
    (ds.map fun d => if a = d then 1 else 0).sum = 1 := by
  induction ds with
  | nil => cases ha
  | cons d t ih =>
    rw [List.nodup_cons] at hnd
    rcases List.mem_cons.mp ha with rfl | hat
    · simp only [List.map_cons, List.sum_cons, if_pos rfl]
      rw [sum_indicator_notmem t a hnd.1]
      simp
    · simp only [List.map_cons, List.sum_cons]
      rw [if_neg (by rintro rfl; exact hnd.1 hat), ih hnd.2 hat]

theorem groupedExpenses_cons_length (e : Expense) (es : List Expense)
    (d : Ymd) :
    (groupedExpenses (e :: es) d).length
      = (if e.date = d then 1 else 0) + (groupedExpenses es d).length := by
  unfold groupedExpenses
  rw [List.filter_cons]
  by_cases h : e.date = d
  · simp [h]
    omega
  · simp [h]

theorem sum_grouped_lengths (ds : List Ymd) (hnd : ds.Nodup) :
    ∀ es : List Expense, (∀ e ∈ es, e.date ∈ ds) →
      (ds.map fun d => (groupedExpenses es d).length).sum = es.length := by
  intro es
  induction es with
  | nil =>
    intro _
    simp [groupedExpenses]
  | cons e t ih =>
    intro hcov
    simp only [groupedExpenses_cons_length]
    rw [sum_map_add, sum_indicator_mem ds e.date hnd
        (hcov e (List.mem_cons_self _ _)),
      ih (fun x hx => hcov x (List.mem_cons_of_mem _ hx))]
    simp
    omega

/-! ### The claims -/

/-- C1: `importMerge` keeps exactly the candidates whose identifier is not
already present (a candidate is admitted iff its id is not in the store's id
set), reports their number, and the resulting collection is the survivors
prepended to the existing collection, re-sorted descending by date; in the
concrete scenario where 2 of 5 candidate identifiers already exist, 3 records
are admitted, the reported count is 3 and the final size is the original
size plus 3. -/
theorem importMerge_correct :
    (∀ store cands : List Expense,
        (importMerge store cands).2 = (newItems store cands).length
        ∧ ((importMerge store cands).1).Perm (newItems store cands ++ store)
        ∧ ((importMerge store cands).1).Sorted dateGe
        ∧ ∀ e ∈ cands, (e ∈ newItems store cands ↔ e.id ∉ ids store))
    ∧ (importMerge c1Store c1Cands).2 = 3
    ∧ ((importMerge c1Store c1Cands).1).length = c1Store.length + 3 := by
  refine ⟨fun store cands => ⟨rfl, importMerge_fst_perm store cands,
    sortByDateDesc_sorted _, fun e he => ?_⟩, by decide, by decide⟩
  constructor
  · intro hmem
    have hb := (List.mem_filter.mp hmem).2
    simpa using hb
  · intro hnot
    exact List.mem_filter.mpr ⟨he, by simpa using hnot⟩

/-- C1 witness: the admission criterion instantiated at a concrete candidate
whose identifier is new. -/
theorem importMerge_correct_witness :
    mkExp "3" ⟨2024, 1, 13⟩ 7 UserID.A ∈ newItems c1Store c1Cands :=
  ((importMerge_correct.1 c1Store c1Cands).2.2.2 _ (by decide)).mpr (by decide)

/-- C2: the Balance Aggregator (spec-modelled, §4.2) is additive over the
collection, counts a single expense exactly when its date lies in the
reference calendar month (year and month match — not a rolling window) and
its payer matches, computes the net balance as `(partyA − partyB) / 2`,
yields zero totals and zero balance on the empty collection, and reproduces
the §8 scenario (A paid 100, B paid 50 in January 2024 → balance 25).  It is
a total pure function, so no error is ever produced. -/
theorem balance_aggregator_correct :
    (∀ es fs : List Expense, ∀ y m : Nat, ∀ u : UserID,
        monthTotal (es ++ fs) y m u
          = monthTotal es y m u + monthTotal fs y m u)
    ∧ (∀ e : Expense, ∀ y m : Nat, ∀ u : UserID,
        monthTotal [e] y m u
          = if e.date.year = y ∧ e.date.month = m ∧ e.payer = u
            then e.amount else 0)
    ∧ (∀ (es : List Expense) (y m : Nat),
        balance es y m
          = (monthTotal es y m UserID.A - monthTotal es y m UserID.B) / 2)
    ∧ (∀ y m u, monthTotal [] y m u = 0)
    ∧ (∀ y m, balance [] y m = 0)
    ∧ monthTotal scenarioStore 2024 1 UserID.A = 100
    ∧ monthTotal scenarioStore 2024 1 UserID.B = 50
    ∧ balance scenarioStore 2024 1 = 25 := by
  have happ : ∀ es fs : List Expense, ∀ y m : Nat, ∀ u : UserID,
      monthTotal (es ++ fs) y m u
        = monthTotal es y m u + monthTotal fs y m u := by
    intro es fs y m u
    simp [monthTotal, List.filter_append]
  have hone : ∀ e : Expense, ∀ y m : Nat, ∀ u : UserID,
      monthTotal [e] y m u
        = if e.date.year = y ∧ e.date.month = m ∧ e.payer = u
          then e.amount else 0 := by
    intro e y m u
    by_cases h1 : e.date.year = y
    · by_cases h2 : e.date.month = m
      · by_cases h3 : e.payer = u
        · simp [monthTotal, inMonth, h1, h2, h3]
        · simp [monthTotal, inMonth, h1, h2, h3]
      · simp [monthTotal, inMonth, h1, h2]
    · simp [monthTotal, inMonth, h1]
  have hsplit : scenarioStore
      = [mkExp "a" ⟨2024, 1, 10⟩ 100 UserID.A]
        ++ [mkExp "b" ⟨2024, 1, 10⟩ 50 UserID.B] := rfl
  have hA : monthTotal scenarioStore 2024 1 UserID.A = 100 := by
    rw [hsplit, happ, hone, hone]
    norm_num [mkExp]
    decide
  have hB : monthTotal scenarioStore 2024 1 UserID.B = 50 := by
    rw [hsplit, happ, hone, hone]
    norm_num [mkExp]
    decide
  refine ⟨happ, hone, fun es y m => rfl, fun y m u => rfl,
    fun y m => by simp [balance, monthTotal], hA, hB, ?_⟩
  show (monthTotal scenarioStore 2024 1 UserID.A
      - monthTotal scenarioStore 2024 1 UserID.B) / 2 = 25
  rw [hA, hB]
  norm_num

/-- C3: `importMerge` is idempotent — merging the same candidate list into
the already-merged store changes nothing and admits zero new records. -/
theorem importMerge_idempotent :
    ∀ store cands : List Expense,
      (importMerge (importMerge store cands).1 cands).1
          = (importMerge store cands).1
      ∧ (importMerge (importMerge store cands).1 cands).2 = 0 := by
  intro store cands
  have hfil : newItems (importMerge store cands).1 cands = [] := by
    rw [newItems, List.filter_eq_nil_iff]
    intro e he
    simp [mem_ids_importMerge he]
  constructor
  · show sortByDateDesc (newItems (importMerge store cands).1 cands
        ++ (importMerge store cands).1) = (importMerge store cands).1
    rw [hfil, List.nil_append]
    exact sortByDateDesc_of_sorted (sortByDateDesc_sorted _)
  · show (newItems (importMerge store cands).1 cands).length = 0
    rw [hfil]
    rfl

/-- C4: for a non-empty collection, flattening `groupByDate`'s buckets over
the distinct dates in descending order reproduces a total count equal to the
input count — no record lost or duplicated. -/
theorem groupByDate_flatten_count (es : List Expense) (h : es ≠ []) :
    (((sortedDates es).map fun d => groupedExpenses es d).flatten).length
      = es.length := by
  rw [List.length_flatten, List.map_map]
  simp only [Function.comp]
  exact sum_grouped_lengths (sortedDates es) (sortedDates_nodup es) es
    (fun e he => mem_sortedDates.mpr ⟨e, he, rfl⟩)

/-- C4 witness: the count identity at a concrete non-empty collection. -/
theorem groupByDate_flatten_count_witness :
    c1Cands ≠ []
    ∧ (((sortedDates c1Cands).map fun d =>
        groupedExpenses c1Cands d).flatten).length = c1Cands.length :=
  ⟨by decide, groupByDate_flatten_count c1Cands (by decide)⟩

/-- C5: on a parse failure or a non-array payload the import leaves the
store unchanged and reports an error; only a successfully parsed array of
expense records mutates the store (and then exactly by the merge). -/
theorem import_error_frame :
    ∀ s : AppState,
      handleImportData s none = (s, Notice.parseFailure)
      ∧ handleImportData s (some ParsedImport.nonArray)
          = (s, Notice.invalidFormat)
      ∧ ∀ items : List Expense,
          handleImportData s (some (ParsedImport.arr items))
            = ({ s with expenses := (importMerge s.expenses items).1 },
               Notice.importSuccess (importMerge s.expenses items).2) :=
  fun _ => ⟨rfl, rfl, fun _ => rfl⟩

/-- C6 counterexample: the code does not deduplicate candidates among
themselves, so importing a candidate list with internally duplicated
identifiers yields a store with duplicated identifiers; likewise, promoting
a draft whose current-time identifier already occurs in the store (here id
"5", saved at time 5) destroys uniqueness. -/
theorem uniqueness_not_invariant :
    (¬ (ids (importMerge [] [mkExp "x" ⟨2024, 1, 10⟩ 1 UserID.A,
        mkExp "x" ⟨2024, 1, 11⟩ 2 UserID.B]).1).Nodup)
    ∧ (ids [mkExp "5" ⟨2024, 1, 10⟩ 1 UserID.A]).Nodup
    ∧ ¬ (ids (handleSaveExpense [mkExp "5" ⟨2024, 1, 10⟩ 1 UserID.A]
        ⟨⟨2024, 1, 12⟩, "", 0, Category.OTHER, UserID.A⟩ 5)).Nodup := by
  decide

/-- C6 amended: identifier uniqueness is preserved by `importMerge` whenever
the candidate list's identifiers are themselves pairwise distinct, and by
draft promotion whenever the assigned identifier (the current-time string)
is not already present; the code checks neither condition itself. -/
theorem uniqueness_preserved :
    (∀ store cands : List Expense, (ids store).Nodup → (ids cands).Nodup →
        (ids (importMerge store cands).1).Nodup)
    ∧ (∀ (store : List Expense) (fd : FinalDraft) (now : Nat),
        (ids store).Nodup → toString now ∉ ids store →
        (ids (handleSaveExpense store fd now)).Nodup) :=
  ⟨fun _ _ h1 h2 => importMerge_ids_nodup h1 h2,
   fun _ _ _ h1 h2 => handleSaveExpense_ids_nodup h1 h2⟩

/-- C6 witness: concrete instances discharging both hypotheses. -/
theorem uniqueness_preserved_witness :
    (ids (importMerge c1Store c1Cands).1).Nodup
    ∧ (ids (handleSaveExpense c1Store
        ⟨⟨2024, 1, 12⟩, "", 0, Category.OTHER, UserID.A⟩ 7)).Nodup :=
  ⟨uniqueness_preserved.1 c1Store c1Cands (by decide) (by decide),
   uniqueness_preserved.2 c1Store _ 7 (by decide) (by decide)⟩

/-- C7: saving inserts the promoted expense and re-sorts, so the result is a
permutation of the old collection plus the new expense, is ordered
descending by date, and has grown by exactly one. -/
theorem add_inserts_and_sorts :
    ∀ (prev : List Expense) (fd : FinalDraft) (now : Nat),
      (handleSaveExpense prev fd now).Perm (promote fd now :: prev)
      ∧ (handleSaveExpense prev fd now).Sorted dateGe
      ∧ (handleSaveExpense prev fd now).length = prev.length + 1 := by
  intro prev fd now
  refine ⟨sortByDateDesc_perm _, sortByDateDesc_sorted _, ?_⟩
  show (sortByDateDesc (promote fd now :: prev)).length = prev.length + 1
  rw [(sortByDateDesc_perm _).length_eq]
  rfl

/-- C8 counterexample: after the close handler runs on a state with an
in-flight draft, the draft value is still present — the close handler only
clears the modal flag and never resets `draftExpense`. -/
theorem cancel_does_not_discard_draft :
    (onCloseEdit ⟨[], some sampleDraft, true, false⟩).draftExpense ≠ none := by
  decide

/-- C8 amended: cancel closes the draft/edit surface and performs no store
mutation, but the draft field itself is not cleared — it retains its value
(only a save or a new draft replaces it). -/
theorem cancel_frame :
    ∀ s : AppState,
      (onCloseEdit s).expenses = s.expenses
      ∧ (onCloseEdit s).isModalOpen = false
      ∧ (onCloseEdit s).draftExpense = s.draftExpense
      ∧ (onCloseEdit s).isAnalyzing = s.isAnalyzing :=
  fun _ => ⟨rfl, rfl, rfl, rfl⟩

/-- C9: evaluating the file handler at a failing analysis call shows the
failure is NOT recovered locally: the busy flag remains set, no notice is
raised, and no draft is created — the catch branch that would clear the flag
and alert is unreachable for a rejection of the awaited service call. -/
theorem analysis_failure_not_recovered :
    ∀ s : AppState,
      (handleFileChange s AnalysisOutcome.failed).1.isAnalyzing = true
      ∧ (handleFileChange s AnalysisOutcome.failed).2 = none
      ∧ (handleFileChange s AnalysisOutcome.failed).1.draftExpense
          = s.draftExpense
      ∧ (handleFileChange s AnalysisOutcome.failed).1.isModalOpen
          = s.isModalOpen
      ∧ (handleFileChange s AnalysisOutcome.failed).1.expenses = s.expenses :=
  fun _ => ⟨rfl, rfl, rfl, rfl, rfl⟩

/-- C10: both insertion paths (save and import) prepend the new records and
then sort with a stable comparator that depends only on the date, so the
sub-sequence of any fixed date `d` in the result equals the new records of
date `d` (in candidate order) followed by the previously stored records of
date `d` in their prior relative order. -/
theorem stable_within_date_order :
    ∀ d : Ymd,
      (∀ (prev : List Expense) (fd : FinalDraft) (now : Nat),
        (handleSaveExpense prev fd now).filter (fun e => decide (e.date = d))
          = (promote fd now :: prev).filter (fun e => decide (e.date = d)))
      ∧ (∀ store cands : List Expense,
        ((importMerge store cands).1).filter (fun e => decide (e.date = d))
          = (newItems store cands).filter (fun e => decide (e.date = d))
            ++ store.filter (fun e => decide (e.date = d))) := by
  intro d
  have hkey : ∀ x y : Expense, decide (x.date = d) = true →
      decide (y.date = d) = true → x.date.time = y.date.time := by
    intro x y hx hy
    rw [decide_eq_true_eq] at hx hy
    rw [hx, hy]
  constructor
  · intro prev fd now
    exact filter_sortByDateDesc _ hkey _
  · intro store cands
    rw [show ((importMerge store cands).1)
        = sortByDateDesc (newItems store cands ++ store) from rfl,
      filter_sortByDateDesc _ hkey, List.filter_append]

end CoSpend
